import Mathlib

/-
Verification of the Darknet/YOLOv3 model builder (`darknet.py`): config
parsing (`parse_cfg`), module construction (`create_modules`), the forward
pass (`Darknet.forward`), the detection-layer decode
(`DetectionLayer.forward`) and the weight loader (`Darknet.load_weights`).

The Python code is shallowly embedded: Python strings are lists of
characters, Python dicts holding config blocks are association lists with
in-place overwrite, Python exceptions are modelled by `Except PyErr`, and
Python list indexing (with negative wrap-around) is `pyGet`. Tensors are
modelled abstractly: the forward pass works on a heap of flat integer
lists so that in-place mutation and aliasing of tensor objects is visible,
while the detection layer is modelled pointwise over an arbitrary
commutative semiring with the external library's `sigmoid` and `exp`
passed in as opaque functions.
-/

set_option maxRecDepth 10000

/-- Exceptions that the Python code can raise while building or running
the model: missing dict key, bad `int()` / unpacking, list index out of
range, attribute/indexing mismatch between blocks and modules, and torch
runtime (shape) errors. -/
inductive PyErr where
  | keyError
  | valueError
  | indexError
  | typeError
  | runtimeError
  deriving DecidableEq

deriving instance DecidableEq for Except

/-- Python strings, modelled as lists of characters. -/
abbrev PyStr := List Char

/-- View a Lean string literal as a Python string. -/
def pys (s : String) : PyStr := s.data

/-- `Except` success test. -/
def isOkE : Except PyErr α → Bool
  | .ok _ => true
  | .error _ => false

/-- Python list indexing `l[idx]`: a negative index first has the length
added; a result outside `[0, len)` raises `IndexError` (`none` here). -/
def pyGet (l : List α) (idx : Int) : Option α :=
  let j : Int := if idx < 0 then idx + l.length else idx
  if 0 ≤ j then l.get? j.toNat else none

/-- Python `str.strip()`: drop whitespace from both ends. -/
def pyStrip (s : PyStr) : PyStr :=
  ((s.dropWhile Char.isWhitespace).reverse.dropWhile Char.isWhitespace).reverse

/-- Python `str.split(sep)` for a one-character separator: split at every
occurrence, keeping empty pieces; the result is always nonempty. -/
def pySplitChar (c : Char) (s : PyStr) : List PyStr :=
  s.foldr
    (fun a acc =>
      if a = c then [] :: acc
      else
        match acc with
        | [] => [[a]]
        | h :: t => (a :: h) :: t)
    [[]]

/-- Value of a nonempty all-digit character list, else `none`. -/
def pyDigits (cs : List Char) : Option Nat :=
  if cs = [] then none
  else
    cs.foldl
      (fun acc ch =>
        match acc with
        | none => none
        | some n => if ch.isDigit then some (10 * n + (ch.toNat - 48)) else none)
      (some 0)

/-- Python `int(s)`: surrounding whitespace is ignored, an optional sign
is followed by at least one digit; anything else raises `ValueError`. -/
def pyInt (s : PyStr) : Except PyErr Int :=
  match pyStrip s with
  | '-' :: ds =>
    match pyDigits ds with
    | some n => .ok (-(n : Int))
    | none => .error .valueError
  | '+' :: ds =>
    match pyDigits ds with
    | some n => .ok (n : Int)
    | none => .error .valueError
  | ds =>
    match pyDigits ds with
    | some n => .ok (n : Int)
    | none => .error .valueError

/-- A config block: a Python dict from string keys to string values,
modelled as an association list in insertion order. -/
abbrev Block := List (PyStr × PyStr)

/-- Python dict assignment `d[k] = v`: overwrite in place if the key
exists, otherwise append the new pair. -/
def dictInsert : Block → PyStr → PyStr → Block
  | [], k, v => [(k, v)]
  | (k1, v1) :: rest, k, v =>
    if k1 = k then (k1, v) :: rest else (k1, v1) :: dictInsert rest k v

/-- Python dict lookup `d[k]` as an `Option`. -/
def dictGet : Block → PyStr → Option PyStr
  | [], _ => none
  | (k1, v1) :: rest, k => if k1 = k then some v1 else dictGet rest k

/-- Python `k in d.keys()`. -/
def dictContains (b : Block) (k : PyStr) : Bool :=
  (dictGet b k).isSome

/-- `parse_cfg` preprocessing (darknet.py lines 10-12): strip every line,
then keep the nonempty lines whose first character is not `#`. -/
def parseKeptLines (raws : List PyStr) : List PyStr :=
  (raws.map pyStrip).filter fun l =>
    match l with
    | [] => false
    | ch :: _ => ch != '#'

/-- The `parse_cfg` accumulation loop (darknet.py lines 13-25): a
`[name]` line flushes the current block when it is nonempty and starts a
block whose `type` is `name` (first and last character dropped, then
stripped); any other line must split on `=` into exactly a key and a
value, else the tuple unpacking raises `ValueError`. At the end of input
the in-progress block is appended unconditionally. -/
def parseLoop : List PyStr → List Block → Block → Except PyErr (List Block)
  | [], blocks, block => .ok (blocks ++ [block])
  | l :: rest, blocks, block =>
    if l.head? = some '[' then
      let blocks' := if block.length ≠ 0 then blocks ++ [block] else blocks
      parseLoop rest blocks' (dictInsert [] (pys "type") (pyStrip (l.drop 1).dropLast))
    else
      match pySplitChar '=' l with
      | [k, v] => parseLoop rest blocks (dictInsert block (pyStrip k) (pyStrip v))
      | _ => .error .valueError

/-- `parse_cfg` on the list of raw lines of the file. -/
def parseCfgLines (raws : List PyStr) : Except PyErr (List Block) :=
  parseLoop (parseKeptLines raws) [] []

/-- `parse_cfg` on the file content (darknet.py line 10 splits on
newlines). -/
def parseCfg (content : PyStr) : Except PyErr (List Block) :=
  parseCfgLines (pySplitChar '\n' content)

/-- The layer data recorded by `create_modules` for one block: the
constructed torch module(s), keeping exactly the fields the rest of the
code reads back (channel counts and kernel size for the weight loader,
resolved indices for route/shortcut, anchors and class count for the
detection layer). An unrecognized block type leaves the `nn.Sequential`
empty. -/
inductive ModuleSpec where
  | conv (bn : Bool) (filters inCh ksize stride padding : Int) (leaky : Bool)
  | shortcut (idx : Int)
  | upsample (stride : Int)
  | route (idxs : List Int)
  | yolo (anchors : List (Int × Int)) (classes inputDim : Int)
  | empty
  deriving DecidableEq

/-- `int(block[k])`: `KeyError` if the key is missing, `ValueError` if
the value is not an integer literal. -/
def getInt (b : Block) (k : PyStr) : Except PyErr Int :=
  match dictGet b k with
  | none => .error .keyError
  | some v => pyInt v

/-- One anchor pair `[int(anchors[2*m]), int(anchors[2*m+1])]` selected
by mask entry `m` from the split `anchors` string (darknet.py line 155). -/
def yoloAnchorPair (aparts : List PyStr) (m : Int) : Except PyErr (Int × Int) :=
  match pyGet aparts (2 * m) with
  | none => .error .indexError
  | some ws =>
    match pyInt ws with
    | .error e => .error e
    | .ok w =>
      match pyGet aparts (2 * m + 1) with
      | none => .error .indexError
      | some hs =>
        match pyInt hs with
        | .error e => .error e
        | .ok h => .ok (w, h)

/-- The `convolutional` branch of `create_modules` (darknet.py lines
95-121): batch-norm iff the `batch_normalize` key is present, required
integer keys `filters`, `size`, `stride`, `pad`, required `activation`
(only the value `leaky` selects an activation, anything else is silently
identity); padding is `(size-1)//2` when the pad flag is nonzero. The
new channel count is `filters`. -/
def cmConv (ch : Int) (b : Block) : Except PyErr (ModuleSpec × Int) :=
  match getInt b (pys "filters") with
  | .error e => .error e
  | .ok filters =>
    match getInt b (pys "size") with
    | .error e => .error e
    | .ok ksize =>
      match getInt b (pys "stride") with
      | .error e => .error e
      | .ok stride =>
        match getInt b (pys "pad") with
        | .error e => .error e
        | .ok pad =>
          match dictGet b (pys "activation") with
          | none => .error .keyError
          | some act =>
            let padding : Int := if pad ≠ 0 then (ksize - 1).fdiv 2 else 0
            .ok (.conv (dictContains b (pys "batch_normalize")) filters ch ksize
              stride padding (act = pys "leaky"), filters)

/-- The `shortcut` branch (darknet.py lines 123-126): the stored index is
`int(block['from']) + i`, never validated; the channel count is
unchanged. -/
def cmShortcut (i : Nat) (ch : Int) (b : Block) : Except PyErr (ModuleSpec × Int) :=
  match getInt b (pys "from") with
  | .error e => .error e
  | .ok a => .ok (.shortcut (a + (i : Int)), ch)

/-- The `upsample` branch (darknet.py lines 128-131). -/
def cmUpsample (ch : Int) (b : Block) : Except PyErr (ModuleSpec × Int) :=
  match getInt b (pys "stride") with
  | .error e => .error e
  | .ok stride => .ok (.upsample stride, ch)

/-- The `route` branch (darknet.py lines 133-148): one or two indices
split from `layers`, each normalized by adding `i` when negative, then
looked up in the recorded channel list with Python list indexing; the
new channel count is the single looked-up record or the sum of the two. -/
def cmRoute (i : Nat) (oc : List Int) (b : Block) : Except PyErr (ModuleSpec × Int) :=
  match dictGet b (pys "layers") with
  | none => .error .keyError
  | some s =>
    match pySplitChar ',' s with
    | [] => .error .indexError
    | p0 :: restP =>
      match pyInt p0 with
      | .error e => .error e
      | .ok a0 =>
        let r0 : Int := if a0 < 0 then (i : Int) + a0 else a0
        match restP with
        | [] =>
          match pyGet oc r0 with
          | none => .error .indexError
          | some c0 => .ok (.route [r0], c0)
        | p1 :: _ =>
          match pyInt p1 with
          | .error e => .error e
          | .ok a1 =>
            let r1 : Int := if a1 < 0 then a1 + (i : Int) else a1
            match pyGet oc r0 with
            | none => .error .indexError
            | some c0 =>
              match pyGet oc r1 with
              | none => .error .indexError
              | some c1 => .ok (.route [r0, r1], c0 + c1)

/-- The `yolo` branch (darknet.py lines 151-160): the `mask` entries
select anchor pairs out of the split `anchors` list; `classes` and the
net block's `width` complete the detection layer; the channel count is
unchanged. -/
def cmYolo (net : Block) (ch : Int) (b : Block) : Except PyErr (ModuleSpec × Int) :=
  match dictGet b (pys "mask") with
  | none => .error .keyError
  | some maskS =>
    match (pySplitChar ',' maskS).mapM pyInt with
    | .error e => .error e
    | .ok masks =>
      match dictGet b (pys "anchors") with
      | none => .error .keyError
      | some anchS =>
        match masks.mapM (yoloAnchorPair (pySplitChar ',' anchS)) with
        | .error e => .error e
        | .ok anchors =>
          match getInt b (pys "classes") with
          | .error e => .error e
          | .ok classes =>
            match getInt net (pys "width") with
            | .error e => .error e
            | .ok width => .ok (.yolo anchors classes width, ch)

/-- One iteration of the `create_modules` loop (darknet.py lines 92-163)
on the block at build position `i`, given the running channel count `ch`
(`in_channel`/`out_channel`, synced at the bottom of each iteration) and
the list `oc` of already recorded output channel counts. Returns the
constructed module and the new channel count; a block of unrecognized
type builds an empty `nn.Sequential` and leaves the channel count
unchanged. -/
def cmStep (net : Block) (i : Nat) (ch : Int) (oc : List Int) (b : Block) :
    Except PyErr (ModuleSpec × Int) :=
  match dictGet b (pys "type") with
  | none => .error .keyError
  | some ty =>
    if ty = pys "convolutional" then cmConv ch b
    else if ty = pys "shortcut" then cmShortcut i ch b
    else if ty = pys "upsample" then cmUpsample ch b
    else if ty = pys "route" then cmRoute i oc b
    else if ty = pys "yolo" then cmYolo net ch b
    else .ok (.empty, ch)

/-- The `create_modules` loop over the non-net blocks, threading the
build position, the channel count and the recorded output channels; each
iteration appends its output channel count to the record. -/
def cmGo (net : Block) : Nat → Int → List Int → List Block →
    Except PyErr (List ModuleSpec × List Int)
  | _, _, oc, [] => .ok ([], oc)
  | i, ch, oc, b :: rest =>
    match cmStep net i ch oc b with
    | .error e => .error e
    | .ok (spec, ch') =>
      match cmGo net (i + 1) ch' (oc ++ [ch']) rest with
      | .error e => .error e
      | .ok (ms, ocF) => .ok (spec :: ms, ocF)

/-- `create_modules(blocks)` (darknet.py lines 85-166): the first block
is the net metadata, the initial channel count is 3 (RGB); returns the
net info, the module list, and the recorded per-layer output channel
counts. -/
def createModules (blocks : List Block) :
    Except PyErr (Block × List ModuleSpec × List Int) :=
  match blocks with
  | [] => .error .indexError
  | net :: rest =>
    match cmGo net 0 3 [] rest with
    | .error e => .error e
    | .ok (ms, oc) => .ok (net, ms, oc)

/-- Tensor contents in the forward pass, abstracted to a flat list of
integers; concatenation along the channel axis is list append and the
elementwise `+=` of a shortcut is `zipAdd` (shapes must match). -/
abbrev Val := List Int

/-- Elementwise tensor addition. -/
def zipAdd (v w : Val) : Val := List.zipWith (· + ·) v w

/-- The executor state of `Darknet.forward`: a heap of tensor objects
(`store`), the output history as references into the heap (`outputs`),
the reference held by the running variable `x` (`xref`) and the value of
the running `detection` tensor. Tensors are heap cells so that the
in-place `x += module(outputs)` of a shortcut layer is visible to every
alias. -/
structure FState where
  store : List Val
  outputs : List Nat
  xref : Nat
  detection : Val
  deriving DecidableEq

/-- Heap dereference. -/
def getStore (s : FState) (r : Nat) : Except PyErr Val :=
  match s.store.get? r with
  | some v => .ok v
  | none => .error .indexError

/-- One iteration of the `Darknet.forward` loop (darknet.py lines
178-190) for the layer at position `i`. `eval i` stands for the external
tensor computation of the torch module at position `i` (convolution
stack, upsample, or detection decode), which returns a fresh tensor.
A convolutional/upsample/yolo layer rebinds `x` to a fresh heap cell; a
route layer concatenates the referenced history entries into a fresh
cell; a shortcut layer mutates the cell `x` refers to in place; a block
of any other type matches no branch and leaves `x` untouched. In every
case the current `x` reference is appended to the history. -/
def stepFwd (eval : Nat → Val → Val) (i : Nat) (b : Block) (m : ModuleSpec)
    (s : FState) : Except PyErr FState :=
  match dictGet b (pys "type") with
  | none => .error .keyError
  | some ty =>
    if ty = pys "convolutional" ∨ ty = pys "upsample" then
      match getStore s s.xref with
      | .error e => .error e
      | .ok xv =>
        .ok ⟨s.store ++ [eval i xv], s.outputs ++ [s.store.length],
          s.store.length, s.detection⟩
    else if ty = pys "shortcut" then
      match m with
      | .shortcut idx =>
        match pyGet s.outputs idx with
        | none => .error .indexError
        | some r2 =>
          match getStore s r2 with
          | .error e => .error e
          | .ok v2 =>
            match getStore s s.xref with
            | .error e => .error e
            | .ok v1 =>
              if v1.length = v2.length then
                .ok ⟨s.store.set s.xref (zipAdd v1 v2), s.outputs ++ [s.xref],
                  s.xref, s.detection⟩
              else .error .runtimeError
      | _ => .error .typeError
    else if ty = pys "route" then
      match m with
      | .route idxs =>
        match idxs.mapM (fun ix => pyGet s.outputs ix) with
        | none => .error .indexError
        | some rs =>
          match rs.mapM (getStore s) with
          | .error e => .error e
          | .ok vs =>
            .ok ⟨s.store ++ [vs.flatten], s.outputs ++ [s.store.length],
              s.store.length, s.detection⟩
      | _ => .error .typeError
    else if ty = pys "yolo" then
      match getStore s s.xref with
      | .error e => .error e
      | .ok xv =>
        .ok ⟨s.store ++ [eval i xv], s.outputs ++ [s.store.length],
          s.store.length, eval i xv ++ s.detection⟩
    else
      .ok ⟨s.store, s.outputs ++ [s.xref], s.xref, s.detection⟩

/-- The `Darknet.forward` loop over the zipped (block, module) list,
starting at position `i`. -/
def runFwd (eval : Nat → Val → Val) :
    Nat → List (Block × ModuleSpec) → FState → Except PyErr FState
  | _, [], s => .ok s
  | i, p :: rest, s =>
    match stepFwd eval i p.1 p.2 s with
    | .error e => .error e
    | .ok s' => runFwd eval (i + 1) rest s'

/-- The executor state at the start of a forward pass on input `x0`:
the input tensor is the only heap cell, the history is empty and
`detection` is the empty tensor. -/
def initFState (x0 : Val) : FState := ⟨[x0], [], 0, []⟩

/-- `Darknet.forward(x)` (darknet.py lines 174-192): run every layer
(blocks after the net block, zipped with the module list) and return the
final `detection` tensor. -/
def darknetForward (eval : Nat → Val → Val) (blocks : List Block)
    (ms : List ModuleSpec) (x0 : Val) : Except PyErr Val :=
  match runFwd eval 0 (blocks.tail.zip ms) (initFState x0) with
  | .error e => .error e
  | .ok s => .ok s.detection

/-- Instrumented forward run: identical to `runFwd` except that it also
records, in build order, the decoded output of every yolo layer. Used to
state in which order `Darknet.forward` concatenates the detections. -/
def runFwdTrace (eval : Nat → Val → Val) :
    Nat → List (Block × ModuleSpec) → FState → Except PyErr (FState × List Val)
  | _, [], s => .ok (s, [])
  | i, p :: rest, s =>
    match stepFwd eval i p.1 p.2 s with
    | .error e => .error e
    | .ok s' =>
      match runFwdTrace eval (i + 1) rest s' with
      | .error e => .error e
      | .ok (sF, tr) =>
        if dictGet p.1 (pys "type") = some (pys "yolo") then
          match getStore s' s'.xref with
          | .error e => .error e
          | .ok v => .ok (sF, v :: tr)
        else .ok (sF, tr)

section Detection

/- `DetectionLayer.forward` (darknet.py lines 56-83), modelled pointwise
over an arbitrary commutative semiring `R` of scalars, with the external
library's `torch.sigmoid` and `torch.exp` passed in as opaque functions
`sig` and `ex`. A tensor of shape (batch, anchors*(5+classes), grid,
grid) is a function of (batch, channel, row, column); the reshaped
5-dimensional view is a function of (batch, anchor, channel, row,
column). Each in-place slice operation of the source is one function. -/

variable {R : Type} [CommSemiring R]

/-- Line 61: `x.view(batch, num_anchors, num_classes+5, grid, grid)`. -/
def detView (numClasses : Nat) (x : Nat → Nat → Nat → Nat → R) :
    Nat → Nat → Nat → Nat → Nat → R :=
  fun b a c i j => x b (a * (numClasses + 5) + c) i j

/-- Line 63: sigmoid on the box-center channels 0 and 1. -/
def detSigCenter (sig : R → R) (d : Nat → Nat → Nat → Nat → Nat → R) :
    Nat → Nat → Nat → Nat → Nat → R :=
  fun b a c i j => if c < 2 then sig (d b a c i j) else d b a c i j

/-- Line 65: sigmoid on the objectness and class channels 4 and up. -/
def detSigObj (sig : R → R) (d : Nat → Nat → Nat → Nat → Nat → R) :
    Nat → Nat → Nat → Nat → Nat → R :=
  fun b a c i j => if 4 ≤ c then sig (d b a c i j) else d b a c i j

/-- Lines 69-76: add the `meshgrid(..., indexing='xy')` offsets, the
column index to channel 0 and the row index to channel 1. -/
def detOffset (d : Nat → Nat → Nat → Nat → Nat → R) :
    Nat → Nat → Nat → Nat → Nat → R :=
  fun b a c i j =>
    if c = 0 then d b a c i j + (j : R)
    else if c = 1 then d b a c i j + (i : R)
    else d b a c i j

/-- Line 77: multiply the box-center channels by the stride. -/
def detStride (stride : Nat) (d : Nat → Nat → Nat → Nat → Nat → R) :
    Nat → Nat → Nat → Nat → Nat → R :=
  fun b a c i j => if c < 2 then d b a c i j * (stride : R) else d b a c i j

/-- Lines 79-80: exponentiate channels 2 and 3 and multiply by the
anchor width resp. height. -/
def detWH (ex : R → R) (anchors : Nat → R × R)
    (d : Nat → Nat → Nat → Nat → Nat → R) :
    Nat → Nat → Nat → Nat → Nat → R :=
  fun b a c i j =>
    if c = 2 then ex (d b a c i j) * (anchors a).1
    else if c = 3 then ex (d b a c i j) * (anchors a).2
    else d b a c i j

/-- Line 82: `transpose(1,2).contiguous().view(batch, classes+5, -1)
.transpose(1,2)`, flattening (anchor, row, column) into one detection
index: detection `a*grid*grid + i*grid + j` holds the decoded box of
anchor `a` at cell `(i, j)`. -/
def detFlatten (grid : Nat) (d : Nat → Nat → Nat → Nat → Nat → R) :
    Nat → Nat → Nat → R :=
  fun b n c => d b (n / (grid * grid)) c (n % (grid * grid) / grid) (n % grid)

/-- A rank-3 tensor together with its shape. -/
structure Tensor3 (R : Type) where
  dims : Nat × Nat × Nat
  val : Nat → Nat → Nat → R

/-- `DetectionLayer.forward`: the full decode pipeline, from the raw
(batch, anchors*(5+classes), grid, grid) input to the decoded
(batch, anchors*grid*grid, 5+classes) output; `stride` is the integer
division `input_dim // grid_size` of line 59. -/
def detectionForward (sig ex : R → R) (anchors : Nat → R × R)
    (batch numAnchors numClasses inputDim grid : Nat)
    (x : Nat → Nat → Nat → Nat → R) : Tensor3 R :=
  let stride := inputDim / grid
  let d := detWH ex anchors (detStride stride (detOffset
    (detSigObj sig (detSigCenter sig (detView numClasses x)))))
  ⟨(batch, numAnchors * grid * grid, numClasses + 5), detFlatten grid d⟩

end Detection

/-- The parameter tensors assigned by `Darknet.load_weights` to one
convolutional layer: the four batch-norm parameters when the layer has
batch normalization, the convolution bias when it does not, and the
convolution kernel in either case. Each is the exact slice of the float
stream it was read from. -/
structure LoadedConv where
  bnBias : Option (List Int)
  bnWeight : Option (List Int)
  bnMean : Option (List Int)
  bnVar : Option (List Int)
  convBias : Option (List Int)
  kernel : List Int
  deriving DecidableEq

/-- `weights[ptr : ptr+n]` followed by `.view_as(target)` where `target`
has `n` elements: numpy slicing silently clamps at the end of the
stream, and `view_as` then raises a runtime error when the slice holds
fewer than `n` values. -/
def sliceW (w : List Int) (p n : Nat) : Except PyErr (List Int) :=
  let s := (w.drop p).take n
  if s.length = n then .ok s else .error .runtimeError

/-- One iteration of the `Darknet.load_weights` loop (darknet.py lines
201-234) for one layer. Only a block of type `convolutional` consumes
floats: with batch-norm, `filters` values each for the normalization
bias, scale, running mean and running variance, in that order;
otherwise `filters` values for the convolution bias; then
`filters*in_channels*ksize*ksize` values for the kernel. Every slice is
reshaped by `view_as`, which fails on a short (truncated) slice. A
mismatch between the block and the built module (which `create_modules`
never produces) surfaces as the attribute/indexing error Python would
raise. -/
def lwStep (b : Block) (m : ModuleSpec) (w : List Int) (ptr : Nat) :
    Except PyErr (Option LoadedConv × Nat) :=
  match dictGet b (pys "type") with
  | none => .error .keyError
  | some ty =>
    if ty = pys "convolutional" then
      match m with
      | .conv bn filters inCh ksize _ _ _ =>
        let nf := filters.toNat
        let nk := (filters * inCh * ksize * ksize).toNat
        if dictContains b (pys "batch_normalize") then
          if bn then
            match sliceW w ptr nf with
            | .error e => .error e
            | .ok bnBias =>
              match sliceW w (ptr + nf) nf with
              | .error e => .error e
              | .ok bnWeight =>
                match sliceW w (ptr + 2 * nf) nf with
                | .error e => .error e
                | .ok bnMean =>
                  match sliceW w (ptr + 3 * nf) nf with
                  | .error e => .error e
                  | .ok bnVar =>
                    match sliceW w (ptr + 4 * nf) nk with
                    | .error e => .error e
                    | .ok kernel =>
                      .ok (some ⟨some bnBias, some bnWeight, some bnMean,
                        some bnVar, none, kernel⟩, ptr + 4 * nf + nk)
          else .error .typeError
        else
          if bn then .error .typeError
          else
            match sliceW w ptr nf with
            | .error e => .error e
            | .ok convBias =>
              match sliceW w (ptr + nf) nk with
              | .error e => .error e
              | .ok kernel =>
                .ok (some ⟨none, none, none, none, some convBias, kernel⟩,
                  ptr + nf + nk)
      | _ => .error .typeError
    else .ok (none, ptr)

/-- The `Darknet.load_weights` loop (darknet.py lines 201-234) over the
zipped (block, module) list, threading the monotonic cursor through the
per-layer step. -/
def lwGo : List (Block × ModuleSpec) → List Int → Nat →
    Except PyErr (List (Option LoadedConv) × Nat)
  | [], _, ptr => .ok ([], ptr)
  | (b, m) :: rest, w, ptr =>
    match lwStep b m w ptr with
    | .error e => .error e
    | .ok (entry, ptr2) =>
      match lwGo rest w ptr2 with
      | .error e => .error e
      | .ok (l, pF) => .ok (entry :: l, pF)

/-- `Darknet.load_weights` on the float stream that follows the 5-int32
header, over the layers of the built network. -/
def loadWeights (pairs : List (Block × ModuleSpec)) (w : List Int) :
    Except PyErr (List (Option LoadedConv) × Nat) :=
  lwGo pairs w 0

/-- Alignment between a block and the module built from it, as
`create_modules` guarantees: the block has a `type`, and a
`convolutional` block is paired with a `conv` module whose batch-norm
flag matches the presence of the `batch_normalize` key and whose counts
are nonnegative. -/
def lAligned (b : Block) (m : ModuleSpec) : Bool :=
  match dictGet b (pys "type") with
  | none => false
  | some ty =>
    if ty = pys "convolutional" then
      match m with
      | .conv bn filters inCh ksize _ _ _ =>
        bn == dictContains b (pys "batch_normalize") && decide (0 ≤ filters) &&
          decide (0 ≤ inCh) && decide (0 ≤ ksize)
      | _ => false
    else true

/-- The number of floats the claim says one layer consumes:
`4*filters` (batch-norm) or `filters` (plain bias) plus
`filters*in_channels*ksize*ksize` for a convolutional layer, zero for
every other layer type. -/
def claimConsume (b : Block) (m : ModuleSpec) : Nat :=
  if dictGet b (pys "type") = some (pys "convolutional") then
    match m with
    | .conv _ filters inCh ksize _ _ _ =>
      (if dictContains b (pys "batch_normalize") then 4 * filters.toNat
       else filters.toNat) + (filters * inCh * ksize * ksize).toNat
    | _ => 0
  else 0

/-- Total float consumption of the whole layer list. -/
def totalConsume (pairs : List (Block × ModuleSpec)) : Nat :=
  (pairs.map fun p => claimConsume p.1 p.2).sum

/-- The plain (clamping) slice `weights[p : p+n]`. -/
def wSlice (w : List Int) (p n : Nat) : List Int :=
  (w.drop p).take n

/-- The loader result as the specification describes it: one record per
layer, a convolutional layer with batch-norm taking, from its start
offset, `filters` floats each for normalization bias, scale, running
mean and running variance, then the kernel; a plain convolutional layer
taking `filters` floats of bias then the kernel; any other layer taking
nothing; each layer's start offset is the running sum of the earlier
layers' consumption. -/
def loadClaimEntry (b : Block) (m : ModuleSpec) (w : List Int) (p : Nat) :
    Option LoadedConv :=
  if dictGet b (pys "type") = some (pys "convolutional") then
    match m with
    | .conv _ filters inCh ksize _ _ _ =>
      let nf := filters.toNat
      let nk := (filters * inCh * ksize * ksize).toNat
      if dictContains b (pys "batch_normalize") then
        some ⟨some (wSlice w p nf), some (wSlice w (p + nf) nf),
          some (wSlice w (p + 2 * nf) nf), some (wSlice w (p + 3 * nf) nf),
          none, wSlice w (p + 4 * nf) nk⟩
      else
        some ⟨none, none, none, none, some (wSlice w p nf),
          wSlice w (p + nf) nk⟩
    | _ => none
  else none

/-- The loader result as the specification describes it, one entry per
layer at the running offsets. -/
def loadClaim : List (Block × ModuleSpec) → List Int → Nat →
    List (Option LoadedConv) × Nat
  | [], _, p => ([], p)
  | (b, m) :: rest, w, p =>
    (loadClaimEntry b m w p :: (loadClaim rest w (p + claimConsume b m)).1,
      (loadClaim rest w (p + claimConsume b m)).2)

/-- A block is harmless for the channel invariant: if it is a
`convolutional` block whose `filters` value parses, that value is
positive. (This is the validity premise of the invariant: configs with
nonpositive filter counts are not valid.) -/
def convFiltersPos (b : Block) : Bool :=
  if dictGet b (pys "type") = some (pys "convolutional") then
    match getInt b (pys "filters") with
    | .ok n => decide (0 < n)
    | .error _ => true
  else true

/-! ## Parser theorems -/

/-- Helper: the parse loop fails exactly when some remaining line is a
non-bracket line that does not split on `=` into exactly two pieces. -/
theorem parseLoop_fails_iff (lines : List PyStr) :
    ∀ (blocks : List Block) (cur : Block),
      isOkE (parseLoop lines blocks cur) = false ↔
        ∃ l ∈ lines, l.head? ≠ some '[' ∧ (pySplitChar '=' l).length ≠ 2 := by
  induction lines with
  | nil =>
    intro blocks cur
    simp [parseLoop, isOkE]
  | cons l rest ih =>
    intro blocks cur
    by_cases hb : l.head? = some '['
    · rw [parseLoop, if_pos hb, ih]
      constructor
      · rintro ⟨m, hm, h1, h2⟩
        exact ⟨m, List.mem_cons_of_mem _ hm, h1, h2⟩
      · rintro ⟨m, hm, h1, h2⟩
        rcases List.mem_cons.mp hm with rfl | hm'
        · exact absurd hb h1
        · exact ⟨m, hm', h1, h2⟩
    · rw [parseLoop, if_neg hb]
      cases hs : pySplitChar '=' l with
      | nil =>
        constructor
        · intro _
          exact ⟨l, List.mem_cons_self l rest, hb, by rw [hs]; simp⟩
        · intro _
          rfl
      | cons k t =>
        cases t with
        | nil =>
          constructor
          · intro _
            exact ⟨l, List.mem_cons_self l rest, hb, by rw [hs]; simp⟩
          · intro _
            rfl
        | cons v t2 =>
          cases t2 with
          | nil =>
            rw [ih]
            constructor
            · rintro ⟨m, hm, h1, h2⟩
              exact ⟨m, List.mem_cons_of_mem _ hm, h1, h2⟩
            · rintro ⟨m, hm, h1, h2⟩
              rcases List.mem_cons.mp hm with rfl | hm'
              · rw [hs] at h2; simp at h2
              · exact ⟨m, hm', h1, h2⟩
          | cons v2 t3 =>
            constructor
            · intro _
              refine ⟨l, List.mem_cons_self l rest, hb, ?_⟩
              rw [hs]; simp
            · intro _
              rfl

/-- C6 (counterexample): the claim says parsing fails when a key=value
line appears before any block header, but `parse_cfg` happily stores the
pre-header line `a=b` into a leading block with no `type` tag and
succeeds. -/
theorem c6_preheader_line_accepted :
    parseCfgLines [pys "a=b", pys "[net]"] =
      .ok [[(pys "a", pys "b")], [(pys "type", pys "net")]] := by
  decide

/-- C6 (amended): parsing fails (with the untyped `ValueError` of the
tuple unpacking `key, value = line.split('=')`) exactly when some kept
line (nonempty after stripping, not a comment) does not start with `[`
and does not split on `=` into exactly two pieces; a key=value line
before the first block header is not an error — it is stored in a
leading block with no `type` key. -/
theorem c6_parse_fails_iff (raws : List PyStr) :
    isOkE (parseCfgLines raws) = false ↔
      ∃ l ∈ parseKeptLines raws,
        l.head? ≠ some '[' ∧ (pySplitChar '=' l).length ≠ 2 := by
  exact parseLoop_fails_iff (parseKeptLines raws) [] []

/-- C6 (witness): the spec's own example — the line `foo` with no `=`
makes parsing fail. -/
theorem c6_parse_fails_iff_witness :
    isOkE (parseCfgLines [pys "[net]", pys "foo"]) = false :=
  (c6_parse_fails_iff [pys "[net]", pys "foo"]).mpr
    ⟨pys "foo", by decide, by decide, by decide⟩

/-- C10: on an input whose lines are all blank or comments, `parse_cfg`
appends the final in-progress block unconditionally and returns exactly
one block with no keys at all — never an empty sequence. -/
theorem c10_empty_input_single_block (raws : List PyStr)
    (h : raws.all (fun l =>
      match pyStrip l with
      | [] => true
      | c :: _ => c == '#') = true) :
    parseCfgLines raws = .ok [[]] := by
  have hk : parseKeptLines raws = [] := by
    unfold parseKeptLines
    rw [List.filter_eq_nil_iff]
    intro a ha
    rcases List.mem_map.mp ha with ⟨l, hl, rfl⟩
    have hp := List.all_eq_true.mp h l hl
    cases hst : pyStrip l with
    | nil => simp [hst]
    | cons c t =>
      rw [hst] at hp
      simp only [beq_iff_eq] at hp
      simp [hst, hp]
  unfold parseCfgLines
  rw [hk]
  rfl

/-- C10 (witness): a concrete file of one blank line, one comment and
one whitespace line parses to exactly one empty block. -/
theorem c10_empty_input_single_block_witness :
    parseCfgLines [pys "", pys "# hi", pys "   "] = .ok [[]] :=
  c10_empty_input_single_block [pys "", pys "# hi", pys "   "] (by decide)

/-! ## Graph-builder theorems -/

/-- Helper: Python list indexing misses exactly the indices outside
`[-len, len)`. -/
theorem pyGet_eq_none_of_oob {α : Type} (l : List α) (idx : Int)
    (h : idx < -(l.length : Int) ∨ (l.length : Int) ≤ idx) :
    pyGet l idx = none := by
  unfold pyGet
  by_cases hneg : idx < 0
  · rcases h with h | h
    · have hj : ¬(0 ≤ idx + (l.length : Int)) := by omega
      simp [hneg, hj]
    · omega
  · rcases h with h | h
    · omega
    · have hj : (0 ≤ idx) := by omega
      have hlen : l.length ≤ idx.toNat := by omega
      simp [hneg, hj, List.get?_eq_none.mpr hlen]
      omega

/-- Helper: a successful Python list lookup returns an element of the
list. -/
theorem pyGet_mem {α : Type} {l : List α} {idx : Int} {x : α}
    (h : pyGet l idx = some x) : x ∈ l := by
  unfold pyGet at h
  by_cases hneg : idx < 0 <;> simp only [hneg, if_true, if_false] at h
  all_goals
    split at h
    · exact List.get?_mem h
    · exact absurd h (by simp)

/-- Helper: a nonnegative resolved index is looked up directly. -/
theorem pyGet_nonneg {α : Type} (l : List α) (idx : Int) (h : 0 ≤ idx) :
    pyGet l idx = l.get? idx.toNat := by
  unfold pyGet
  have hneg : ¬ idx < 0 := by omega
  simp [hneg, h]

/-- C4 (counterexample): the claim says any route/shortcut block whose
resolved source index falls outside `[0, i)` makes the build fail, but a
`shortcut` block with `from=-100` at build position 2 (resolved index
-98) builds successfully: `create_modules` never validates shortcut
indices. -/
theorem c4_shortcut_oob_builds :
    createModules
      [[(pys "type", pys "net")],
       [(pys "type", pys "foo")],
       [(pys "type", pys "foo")],
       [(pys "type", pys "shortcut"), (pys "from", pys "-100")]] =
    .ok ([(pys "type", pys "net")],
      [.empty, .empty, .shortcut (-98)], [3, 3, 3]) := by
  decide

/-- C4 (amended): only `route` blocks are checked, and only through
Python list indexing of the channel record: a single-index route block
at build position `i` whose resolved index lies outside `[-i, i)` makes
the build fail with an `IndexError` (resolved indices in `[-i, 0)` wrap
around to the end of the record instead of failing; shortcut `from`
indices are not validated at all, see the counterexample). -/
theorem c4_route_oob_fails (net b : Block) (i : Nat) (ch : Int) (oc : List Int)
    (rest : List Block) (s p0 : PyStr) (a r : Int)
    (hty : dictGet b (pys "type") = some (pys "route"))
    (hlay : dictGet b (pys "layers") = some s)
    (hsp : pySplitChar ',' s = [p0])
    (ha : pyInt p0 = .ok a)
    (hr : r = if a < 0 then (i : Int) + a else a)
    (hlen : oc.length = i)
    (hoob : r < -(i : Int) ∨ (i : Int) ≤ r) :
    cmGo net i ch oc (b :: rest) = .error .indexError := by
  have hnone : pyGet oc r = none := by
    apply pyGet_eq_none_of_oob
    rw [hlen]
    exact hoob
  have hstep : cmStep net i ch oc b = .error .indexError := by
    have hroute : cmRoute i oc b = .error .indexError := by
      simp only [cmRoute, hlay, hsp, ha]
      rw [← hr]
      simp only [hnone]
    simp only [cmStep, hty,
      eq_false (show ¬ (pys "route" = pys "convolutional") by decide),
      eq_false (show ¬ (pys "route" = pys "shortcut") by decide),
      eq_false (show ¬ (pys "route" = pys "upsample") by decide),
      eq_self_iff_true, if_false, if_true, ite_false, ite_true, hroute]
  rw [cmGo, hstep]

/-- C4 (witness): a route block with `layers=-100` at build position 2
fails the build with an `IndexError`. -/
theorem c4_route_oob_fails_witness :
    cmGo [(pys "type", pys "net")] 2 3 [3, 3]
      [[(pys "type", pys "route"), (pys "layers", pys "-100")]] =
        .error .indexError :=
  c4_route_oob_fails [(pys "type", pys "net")]
    [(pys "type", pys "route"), (pys "layers", pys "-100")] 2 3 [3, 3] []
    (pys "-100") (pys "-100") (-100) (-98) (by decide) (by decide) (by decide)
    (by decide) (by decide) (by decide) (by decide)

/-- Helper: a successful convolutional build step returns the parsed
`filters` value as the new channel count. -/
theorem cmConv_snd (ch : Int) (b : Block) (spec : ModuleSpec) (ch' : Int)
    (h : cmConv ch b = .ok (spec, ch')) :
    getInt b (pys "filters") = .ok ch' := by
  unfold cmConv at h
  cases hf : getInt b (pys "filters") with
  | error e => simp only [hf] at h; exact Except.noConfusion h
  | ok filters =>
    simp only [hf] at h
    cases h2 : getInt b (pys "size") with
    | error e => simp only [h2] at h; exact Except.noConfusion h
    | ok ksize =>
      simp only [h2] at h
      cases h3 : getInt b (pys "stride") with
      | error e => simp only [h3] at h; exact Except.noConfusion h
      | ok stride =>
        simp only [h3] at h
        cases h4 : getInt b (pys "pad") with
        | error e => simp only [h4] at h; exact Except.noConfusion h
        | ok pad =>
          simp only [h4] at h
          cases h5 : dictGet b (pys "activation") with
          | none => simp only [h5] at h; exact Except.noConfusion h
          | some act =>
            simp only [h5] at h
            injection h with hp
            injection hp with hs1 hc1
            rw [hc1]

/-- Helper: a successful shortcut build step keeps the channel count. -/
theorem cmShortcut_snd (i : Nat) (ch : Int) (b : Block) (spec : ModuleSpec)
    (ch' : Int) (h : cmShortcut i ch b = .ok (spec, ch')) : ch' = ch := by
  unfold cmShortcut at h
  cases hf : getInt b (pys "from") with
  | error e => simp only [hf] at h; exact Except.noConfusion h
  | ok a =>
    simp only [hf] at h
    injection h with hp
    injection hp with hs1 hc1
    rw [hc1]

/-- Helper: a successful upsample build step keeps the channel count. -/
theorem cmUpsample_snd (ch : Int) (b : Block) (spec : ModuleSpec)
    (ch' : Int) (h : cmUpsample ch b = .ok (spec, ch')) : ch' = ch := by
  unfold cmUpsample at h
  cases hf : getInt b (pys "stride") with
  | error e => simp only [hf] at h; exact Except.noConfusion h
  | ok a =>
    simp only [hf] at h
    injection h with hp
    injection hp with hs1 hc1
    rw [hc1]

/-- Helper: a successful yolo build step keeps the channel count. -/
theorem cmYolo_snd (net : Block) (ch : Int) (b : Block) (spec : ModuleSpec)
    (ch' : Int) (h : cmYolo net ch b = .ok (spec, ch')) : ch' = ch := by
  unfold cmYolo at h
  cases h1 : dictGet b (pys "mask") with
  | none => simp only [h1] at h; exact Except.noConfusion h
  | some maskS =>
    simp only [h1] at h
    cases h2 : (pySplitChar ',' maskS).mapM pyInt with
    | error e => simp only [h2] at h; exact Except.noConfusion h
    | ok masks =>
      simp only [h2] at h
      cases h3 : dictGet b (pys "anchors") with
      | none => simp only [h3] at h; exact Except.noConfusion h
      | some anchS =>
        simp only [h3] at h
        cases h4 : masks.mapM (yoloAnchorPair (pySplitChar ',' anchS)) with
        | error e => simp only [h4] at h; exact Except.noConfusion h
        | ok anchors =>
          simp only [h4] at h
          cases h5 : getInt b (pys "classes") with
          | error e => simp only [h5] at h; exact Except.noConfusion h
          | ok classes =>
            simp only [h5] at h
            cases h6 : getInt net (pys "width") with
            | error e => simp only [h6] at h; exact Except.noConfusion h
            | ok width =>
              simp only [h6] at h
              injection h with hp
              injection hp with hs1 hc1
              rw [hc1]

/-- Helper: a successful route build step returns a channel count drawn
from the recorded list (one record, or the sum of two). -/
theorem cmRoute_pos (i : Nat) (oc : List Int) (b : Block) (spec : ModuleSpec)
    (ch' : Int) (h : cmRoute i oc b = .ok (spec, ch'))
    (hoc : ∀ c ∈ oc, 0 < c) : 0 < ch' := by
  unfold cmRoute at h
  cases h1 : dictGet b (pys "layers") with
  | none => simp only [h1] at h; exact Except.noConfusion h
  | some s =>
    simp only [h1] at h
    cases h2 : pySplitChar ',' s with
    | nil => simp only [h2] at h; exact Except.noConfusion h
    | cons p0 restP =>
      simp only [h2] at h
      cases h3 : pyInt p0 with
      | error e => simp only [h3] at h; exact Except.noConfusion h
      | ok a0 =>
        simp only [h3] at h
        cases restP with
        | nil =>
          cases h4 : pyGet oc (if a0 < 0 then (i : Int) + a0 else a0) with
          | none => simp only [h4] at h; exact Except.noConfusion h
          | some c0 =>
            simp only [h4] at h
            injection h with hp
            injection hp with hs1 hc1
            rw [← hc1]
            exact hoc c0 (pyGet_mem h4)
        | cons p1 tp =>
          cases h5 : pyInt p1 with
          | error e => simp only [h5] at h; exact Except.noConfusion h
          | ok a1 =>
            simp only [h5] at h
            cases h6 : pyGet oc (if a0 < 0 then (i : Int) + a0 else a0) with
            | none => simp only [h6] at h; exact Except.noConfusion h
            | some c0 =>
              simp only [h6] at h
              cases h7 : pyGet oc (if a1 < 0 then a1 + (i : Int) else a1) with
              | none => simp only [h7] at h; exact Except.noConfusion h
              | some c1 =>
                simp only [h7] at h
                injection h with hp
                injection hp with hs1 hc1
                rw [← hc1]
                have := hoc c0 (pyGet_mem h6)
                have := hoc c1 (pyGet_mem h7)
                omega

/-- Helper for the channel-count invariant: a successful build step
produces a positive channel count, given a positive incoming count,
positive records and a valid `filters` value. -/
theorem cmStep_pos (net : Block) (i : Nat) (ch : Int) (oc : List Int) (b : Block)
    (spec : ModuleSpec) (ch' : Int)
    (h : cmStep net i ch oc b = .ok (spec, ch'))
    (hch : 0 < ch) (hoc : ∀ c ∈ oc, 0 < c)
    (hb : convFiltersPos b = true) : 0 < ch' := by
  unfold cmStep at h
  cases hty : dictGet b (pys "type") with
  | none => simp only [hty] at h; exact Except.noConfusion h
  | some ty =>
    simp only [hty] at h
    by_cases h1 : ty = pys "convolutional"
    · subst h1
      rw [if_pos rfl] at h
      have hform := cmConv_snd ch b spec ch' h
      unfold convFiltersPos at hb
      rw [hty, if_pos rfl] at hb
      simp only [hform] at hb
      exact of_decide_eq_true hb
    · rw [if_neg h1] at h
      by_cases h2 : ty = pys "shortcut"
      · subst h2
        rw [if_pos rfl] at h
        exact (cmShortcut_snd i ch b spec ch' h) ▸ hch
      · rw [if_neg h2] at h
        by_cases h3 : ty = pys "upsample"
        · subst h3
          rw [if_pos rfl] at h
          exact (cmUpsample_snd ch b spec ch' h) ▸ hch
        · rw [if_neg h3] at h
          by_cases h4 : ty = pys "route"
          · subst h4
            rw [if_pos rfl] at h
            exact cmRoute_pos i oc b spec ch' h hoc
          · rw [if_neg h4] at h
            by_cases h5 : ty = pys "yolo"
            · subst h5
              rw [if_pos rfl] at h
              exact (cmYolo_snd net ch b spec ch' h) ▸ hch
            · rw [if_neg h5] at h
              injection h with hp
              injection hp with hs1 hc1
              rw [← hc1]
              exact hch

/-- Helper: the channel record only grows — a successful run of the
build loop returns the incoming record extended at the end. -/
theorem cmGo_oc_extends (net : Block) :
    ∀ (blocks : List Block) (i : Nat) (ch : Int) (oc : List Int)
      (ms : List ModuleSpec) (ocF : List Int),
      cmGo net i ch oc blocks = .ok (ms, ocF) → ∃ t, ocF = oc ++ t := by
  intro blocks
  induction blocks with
  | nil =>
    intro i ch oc ms ocF h
    rw [cmGo] at h
    injection h with hp
    injection hp with hms hoc
    exact ⟨[], by rw [← hoc]; simp⟩
  | cons b rest ih =>
    intro i ch oc ms ocF h
    rw [cmGo] at h
    cases hstep : cmStep net i ch oc b with
    | error e => simp only [hstep] at h; exact Except.noConfusion h
    | ok p =>
      obtain ⟨spec, ch'⟩ := p
      simp only [hstep] at h
      cases hrec : cmGo net (i + 1) ch' (oc ++ [ch']) rest with
      | error e => simp only [hrec] at h; exact Except.noConfusion h
      | ok q =>
        obtain ⟨ms2, ocF2⟩ := q
        simp only [hrec] at h
        obtain ⟨t, ht⟩ := ih (i + 1) ch' (oc ++ [ch']) ms2 ocF2 hrec
        injection h with hp2
        injection hp2 with hms hocF
        exact ⟨ch' :: t, by rw [← hocF, ht]; simp⟩

/-- Helper: the channel-record invariant of the build loop — one record
appended per block, all records positive. -/
theorem cmGo_pos (net : Block) :
    ∀ (blocks : List Block) (i : Nat) (ch : Int) (oc : List Int)
      (ms : List ModuleSpec) (ocF : List Int),
      cmGo net i ch oc blocks = .ok (ms, ocF) →
      0 < ch → (∀ c ∈ oc, 0 < c) → blocks.all convFiltersPos = true →
      ocF.length = oc.length + blocks.length ∧ ∀ c ∈ ocF, 0 < c := by
  intro blocks
  induction blocks with
  | nil =>
    intro i ch oc ms ocF h hch hoc hall
    rw [cmGo] at h
    injection h with hp
    injection hp with hms hoc'
    subst hoc'
    exact ⟨by simp, hoc⟩
  | cons b rest ih =>
    intro i ch oc ms ocF h hch hoc hall
    rw [cmGo] at h
    cases hstep : cmStep net i ch oc b with
    | error e => simp only [hstep] at h; exact Except.noConfusion h
    | ok p =>
      obtain ⟨spec, ch'⟩ := p
      simp only [hstep] at h
      cases hrec : cmGo net (i + 1) ch' (oc ++ [ch']) rest with
      | error e => simp only [hrec] at h; exact Except.noConfusion h
      | ok q =>
        obtain ⟨ms2, ocF2⟩ := q
        simp only [hrec] at h
        injection h with hp2
        injection hp2 with hms hocF
        subst hocF
        rw [List.all_cons, Bool.and_eq_true] at hall
        have hch' : 0 < ch' :=
          cmStep_pos net i ch oc b spec ch' hstep hch hoc hall.1
        have hoc' : ∀ c ∈ oc ++ [ch'], 0 < c := by
          intro c hc
          rcases List.mem_append.mp hc with hc | hc
          · exact hoc c hc
          · have := List.mem_singleton.mp hc
            subst this
            exact hch'
        obtain ⟨hlen, hpos⟩ := ih (i + 1) ch' (oc ++ [ch']) ms2 ocF2 hrec hch' hoc' hall.2
        refine ⟨?_, hpos⟩
        rw [hlen]
        simp
        omega

/-- C8: for every valid config (the build succeeds and every
`convolutional` block declares a positive `filters` count), building the
network records exactly one output channel count per non-metadata block,
and every recorded count is positive. -/
theorem c8_channel_record_invariant (blocks : List Block) (net : Block)
    (ms : List ModuleSpec) (oc : List Int)
    (h : createModules blocks = .ok (net, ms, oc))
    (hv : blocks.tail.all convFiltersPos = true) :
    oc.length = blocks.tail.length ∧ ∀ c ∈ oc, 0 < c := by
  unfold createModules at h
  cases blocks with
  | nil => exact Except.noConfusion h
  | cons nb rest =>
    cases hgo : cmGo nb 0 3 [] rest with
    | error e => simp only [hgo] at h; exact Except.noConfusion h
    | ok q =>
      obtain ⟨ms2, oc2⟩ := q
      simp only [hgo] at h
      injection h with hp
      injection hp with hnet hrest
      injection hrest with hms hoc
      subst hoc
      have := cmGo_pos nb rest 0 3 [] ms2 oc2 hgo (by omega) (by simp) hv
      simpa using this

/-- C8 (witness): the invariant on a concrete 3-layer config. -/
theorem c8_channel_record_invariant_witness :
    ([16, 32, 32] : List Int).length =
        ([[(pys "type", pys "convolutional"), (pys "batch_normalize", pys "1"),
           (pys "filters", pys "16"), (pys "size", pys "3"),
           (pys "stride", pys "1"), (pys "pad", pys "1"),
           (pys "activation", pys "leaky")],
          [(pys "type", pys "route"), (pys "layers", pys "0, -1")],
          [(pys "type", pys "yolo"), (pys "mask", pys "0"),
           (pys "anchors", pys "10,13"), (pys "classes", pys "1")]] :
          List Block).length ∧
      ∀ c ∈ ([16, 32, 32] : List Int), 0 < c :=
  c8_channel_record_invariant
    [[(pys "type", pys "net"), (pys "width", pys "416")],
     [(pys "type", pys "convolutional"), (pys "batch_normalize", pys "1"),
      (pys "filters", pys "16"), (pys "size", pys "3"), (pys "stride", pys "1"),
      (pys "pad", pys "1"), (pys "activation", pys "leaky")],
     [(pys "type", pys "route"), (pys "layers", pys "0, -1")],
     [(pys "type", pys "yolo"), (pys "mask", pys "0"),
      (pys "anchors", pys "10,13"), (pys "classes", pys "1")]]
    [(pys "type", pys "net"), (pys "width", pys "416")]
    [.conv true 16 3 3 1 1 true, .route [0, 0], .yolo [(10, 13)] 1 416]
    [16, 32, 32] (by decide) (by decide)

/-- Helper: dispatch — on a `route` block, a build step runs the route
branch. -/
theorem cmStep_route (net : Block) (i : Nat) (ch : Int) (oc : List Int)
    (b : Block) (hty : dictGet b (pys "type") = some (pys "route")) :
    cmStep net i ch oc b = cmRoute i oc b := by
  simp only [cmStep, hty,
    eq_false (show ¬ (pys "route" = pys "convolutional") by decide),
    eq_false (show ¬ (pys "route" = pys "shortcut") by decide),
    eq_false (show ¬ (pys "route" = pys "upsample") by decide),
    eq_self_iff_true, if_false, if_true, ite_false, ite_true]

/-- Helper: a get at the seam of an extension reads the appended head. -/
theorem get?_append_head {α : Type} (oc : List α) (c0 : α) (t : List α) :
    (oc ++ [c0] ++ t).get? oc.length = some c0 := by
  rw [List.append_assoc, List.get?_append_right (le_refl oc.length)]
  simp

/-- C3: a route block built at position `i` with one index records the
referenced layer's recorded output channel count (negative indices first
normalized by adding `i`); with two indices it records the sum of the
two referenced records and builds a module holding the two resolved
indices in the order listed; and at run time the route layer
concatenates the referenced history entries along the channel axis in
exactly that order. -/
theorem c3_route_semantics :
    (∀ (net b : Block) (i : Nat) (ch : Int) (oc : List Int)
       (rest : List Block) (ms : List ModuleSpec) (ocF : List Int)
       (s p0 : PyStr) (a r : Int),
       dictGet b (pys "type") = some (pys "route") →
       dictGet b (pys "layers") = some s →
       pySplitChar ',' s = [p0] →
       pyInt p0 = .ok a →
       r = (if a < 0 then (i : Int) + a else a) →
       0 ≤ r → r < (i : Int) → oc.length = i →
       cmGo net i ch oc (b :: rest) = .ok (ms, ocF) →
       ms.head? = some (.route [r]) ∧ ocF.get? i = oc.get? r.toNat) ∧
    (∀ (net b : Block) (i : Nat) (ch : Int) (oc : List Int)
       (rest : List Block) (ms : List ModuleSpec) (ocF : List Int)
       (s p0 p1 : PyStr) (tp : List PyStr) (a0 a1 r0 r1 : Int) (c0 c1 : Int),
       dictGet b (pys "type") = some (pys "route") →
       dictGet b (pys "layers") = some s →
       pySplitChar ',' s = p0 :: p1 :: tp →
       pyInt p0 = .ok a0 → pyInt p1 = .ok a1 →
       r0 = (if a0 < 0 then (i : Int) + a0 else a0) →
       r1 = (if a1 < 0 then a1 + (i : Int) else a1) →
       0 ≤ r0 → 0 ≤ r1 → oc.length = i →
       oc.get? r0.toNat = some c0 → oc.get? r1.toNat = some c1 →
       cmGo net i ch oc (b :: rest) = .ok (ms, ocF) →
       ms.head? = some (.route [r0, r1]) ∧ ocF.get? i = some (c0 + c1)) ∧
    (∀ (eval : Nat → Val → Val) (j : Nat) (b : Block) (q0 q1 : Int)
       (st st' : FState) (r0 r1 : Nat) (v0 v1 : Val),
       dictGet b (pys "type") = some (pys "route") →
       stepFwd eval j b (.route [q0, q1]) st = .ok st' →
       pyGet st.outputs q0 = some r0 → pyGet st.outputs q1 = some r1 →
       st.store.get? r0 = some v0 → st.store.get? r1 = some v1 →
       st'.store.get? st.store.length = some (v0 ++ v1)) := by
  refine ⟨?_, ?_, ?_⟩
  · intro net b i ch oc rest ms ocF s p0 a r hty hlay hsp ha hr hr0 hri hlen hrun
    have hrt : r.toNat < oc.length := by omega
    cases hc0 : oc.get? r.toNat with
    | none =>
      rw [List.get?_eq_none] at hc0
      omega
    | some c0 =>
      have hpg : pyGet oc r = some c0 := by
        rw [pyGet_nonneg oc r hr0]
        exact hc0
      have hcm : cmRoute i oc b = .ok (.route [r], c0) := by
        simp only [cmRoute, hlay, hsp, ha]
        rw [← hr]
        simp only [hpg]
      rw [cmGo, cmStep_route net i ch oc b hty, hcm] at hrun
      cases hrec : cmGo net (i + 1) c0 (oc ++ [c0]) rest with
      | error e => simp only [hrec] at hrun; exact Except.noConfusion hrun
      | ok q =>
        obtain ⟨ms2, ocF2⟩ := q
        simp only [hrec] at hrun
        injection hrun with hp2
        injection hp2 with hms hocF
        subst hocF
        obtain ⟨t, ht⟩ := cmGo_oc_extends net rest (i + 1) c0 (oc ++ [c0]) ms2 ocF2 hrec
        constructor
        · rw [← hms]; rfl
        · rw [ht, ← hlen, get?_append_head]
  · intro net b i ch oc rest ms ocF s p0 p1 tp a0 a1 r0 r1 c0 c1 hty hlay hsp ha0
      ha1 hr0 hr1 hn0 hn1 hlen hc0 hc1 hrun
    have hpg0 : pyGet oc r0 = some c0 := by
      rw [pyGet_nonneg oc r0 hn0]; exact hc0
    have hpg1 : pyGet oc r1 = some c1 := by
      rw [pyGet_nonneg oc r1 hn1]; exact hc1
    have hcm : cmRoute i oc b = .ok (.route [r0, r1], c0 + c1) := by
      simp only [cmRoute, hlay, hsp, ha0, ha1]
      rw [← hr0, ← hr1]
      simp only [hpg0, hpg1]
    rw [cmGo, cmStep_route net i ch oc b hty, hcm] at hrun
    cases hrec : cmGo net (i + 1) (c0 + c1) (oc ++ [c0 + c1]) rest with
    | error e => simp only [hrec] at hrun; exact Except.noConfusion hrun
    | ok q =>
      obtain ⟨ms2, ocF2⟩ := q
      simp only [hrec] at hrun
      injection hrun with hp2
      injection hp2 with hms hocF
      subst hocF
      obtain ⟨t, ht⟩ :=
        cmGo_oc_extends net rest (i + 1) (c0 + c1) (oc ++ [c0 + c1]) ms2 ocF2 hrec
      constructor
      · rw [← hms]; rfl
      · rw [ht, ← hlen, get?_append_head]
  · intro eval j b q0 q1 st st' r0 r1 v0 v1 hty hstep hq0 hq1 hv0 hv1
    have hg0 : getStore st r0 = .ok v0 := by unfold getStore; rw [hv0]
    have hg1 : getStore st r1 = .ok v1 := by unfold getStore; rw [hv1]
    unfold stepFwd at hstep
    simp only [hty,
      eq_false (show ¬ (pys "route" = pys "convolutional" ∨
        pys "route" = pys "upsample") by decide),
      eq_false (show ¬ (pys "route" = pys "shortcut") by decide),
      eq_self_iff_true, if_false, if_true, ite_false, ite_true] at hstep
    simp [List.mapM, List.mapM.loop, hq0, hq1, hg0, hg1, Bind.bind, Except.bind, Pure.pure, Except.pure] at hstep
    rw [← hstep]
    simp [List.get?_concat_length]

/-- C3 (witness): the route bookkeeping on concrete configs — a
single-index route (`layers=-1` at position 1) copies record 0, a
two-index route (`layers=0,-1` at position 2) sums records 0 and 1 and
stores both resolved indices in order, and the route forward
concatenates the two referenced tensors in the order listed. -/
theorem c3_route_semantics_witness :
    (([ModuleSpec.route [0]] : List ModuleSpec).head? = some (.route [0]) ∧
      ([16, 16] : List Int).get? 1 = ([16] : List Int).get? (Int.toNat 0)) ∧
    (([ModuleSpec.route [0, 1]] : List ModuleSpec).head? = some (.route [0, 1]) ∧
      ([4, 5, 9] : List Int).get? 2 = some (4 + 5)) ∧
    (FState.mk [[1], [2], [1, 2]] [0, 1, 2] 2 []).store.get? 2 =
      some (([1] : Val) ++ ([2] : Val)) :=
  ⟨c3_route_semantics.1 [(pys "type", pys "net")]
    [(pys "type", pys "route"), (pys "layers", pys "-1")] 1 3 [16] []
    [ModuleSpec.route [0]] [16, 16] (pys "-1") (pys "-1") (-1) 0
    (by decide) (by decide) (by decide) (by decide) (by decide) (by decide)
    (by decide) (by decide) (by decide),
   c3_route_semantics.2.1 [(pys "type", pys "net")]
    [(pys "type", pys "route"), (pys "layers", pys "0,-1")] 2 3 [4, 5] []
    [ModuleSpec.route [0, 1]] [4, 5, 9] (pys "0,-1") (pys "0") (pys "-1") []
    0 (-1) 0 1 4 5
    (by decide) (by decide) (by decide) (by decide) (by decide) (by decide)
    (by decide) (by decide) (by decide) (by decide) (by decide) (by decide)
    (by decide),
   c3_route_semantics.2.2 (fun _ v => v) 0 [(pys "type", pys "route")] 0 1
    (FState.mk [[1], [2]] [0, 1] 1 []) (FState.mk [[1], [2], [1, 2]] [0, 1, 2] 2 [])
    0 1 [1] [2]
    (by decide) (by decide) (by decide) (by decide) (by decide) (by decide)⟩

/-! ## Forward-pass theorems -/

/-- Helper: a non-yolo layer never changes the running `detection`
tensor. -/
theorem stepFwd_det_nonyolo (eval : Nat → Val → Val) (i : Nat) (b : Block)
    (m : ModuleSpec) (s s' : FState)
    (h : stepFwd eval i b m s = .ok s')
    (hny : dictGet b (pys "type") ≠ some (pys "yolo")) :
    s'.detection = s.detection := by
  unfold stepFwd at h
  repeat' split at h
  all_goals (try exact Except.noConfusion h)
  all_goals (injection h with h2; subst h2)
  all_goals (try rfl)
  all_goals simp_all

/-- Helper: a yolo layer allocates a fresh tensor for the decoded output
and prepends the same value to the running `detection`. -/
theorem stepFwd_yolo_det (eval : Nat → Val → Val) (i : Nat) (b : Block)
    (m : ModuleSpec) (s s' : FState)
    (hty : dictGet b (pys "type") = some (pys "yolo"))
    (h : stepFwd eval i b m s = .ok s') :
    ∃ xv, getStore s s.xref = .ok xv ∧
      s' = ⟨s.store ++ [eval i xv], s.outputs ++ [s.store.length],
        s.store.length, eval i xv ++ s.detection⟩ := by
  unfold stepFwd at h
  simp only [hty,
    eq_false (show ¬ (pys "yolo" = pys "convolutional" ∨
      pys "yolo" = pys "upsample") by decide),
    eq_false (show ¬ (pys "yolo" = pys "shortcut") by decide),
    eq_false (show ¬ (pys "yolo" = pys "route") by decide),
    eq_self_iff_true, if_false, if_true, ite_false, ite_true] at h
  cases hx : getStore s s.xref with
  | error e => simp only [hx] at h; exact Except.noConfusion h
  | ok xv =>
    simp only [hx] at h
    injection h with h2
    exact ⟨xv, rfl, h2.symm⟩

/-- Helper: the instrumented run agrees with `Darknet.forward` and its
trace lists the yolo outputs in build order, while the `detection`
accumulator holds them in reverse build order (each yolo output is
prepended by `torch.cat((x, detection))`). -/
theorem runFwdTrace_spec (eval : Nat → Val → Val) :
    ∀ (pairs : List (Block × ModuleSpec)) (i : Nat) (s sF : FState)
      (tr : List Val),
      runFwdTrace eval i pairs s = .ok (sF, tr) →
      runFwd eval i pairs s = .ok sF ∧
        sF.detection = tr.reverse.flatten ++ s.detection ∧
        tr.length = (pairs.filter (fun p =>
          decide (dictGet p.1 (pys "type") = some (pys "yolo")))).length := by
  intro pairs
  induction pairs with
  | nil =>
    intro i s sF tr h
    rw [runFwdTrace] at h
    injection h with hp
    injection hp with hs ht
    subst hs
    subst ht
    exact ⟨rfl, by simp, by simp⟩
  | cons p rest ih =>
    intro i s sF tr h
    rw [runFwdTrace] at h
    cases hstep : stepFwd eval i p.1 p.2 s with
    | error e => simp only [hstep] at h; exact Except.noConfusion h
    | ok s1 =>
      simp only [hstep] at h
      cases hrec : runFwdTrace eval (i + 1) rest s1 with
      | error e => simp only [hrec] at h; exact Except.noConfusion h
      | ok q =>
        obtain ⟨sF2, tr2⟩ := q
        simp only [hrec] at h
        obtain ⟨hrun2, hdet2, hlen2⟩ := ih (i + 1) s1 sF2 tr2 hrec
        have hrunc : runFwd eval i (p :: rest) s = runFwd eval (i + 1) rest s1 := by
          rw [runFwd, hstep]
        by_cases hy : dictGet p.1 (pys "type") = some (pys "yolo")
        · rw [if_pos hy] at h
          obtain ⟨xv, hxv, hs1⟩ := stepFwd_yolo_det eval i p.1 p.2 s s1 hy hstep
          have hgv : getStore s1 s1.xref = .ok (eval i xv) := by
            rw [hs1]
            unfold getStore
            simp [List.get?_concat_length]
          rw [hgv] at h
          injection h with hp2
          injection hp2 with hsF htr
          subst hsF
          subst htr
          refine ⟨by rw [hrunc]; exact hrun2, ?_, ?_⟩
          · rw [hdet2, hs1]
            simp [List.flatten_append]
          · simp [hlen2, List.filter_cons, hy]
        · rw [if_neg hy] at h
          injection h with hp2
          injection hp2 with hsF htr
          subst hsF
          subst htr
          have hdet1 : s1.detection = s.detection :=
            stepFwd_det_nonyolo eval i p.1 p.2 s s1 hstep hy
          refine ⟨by rw [hrunc]; exact hrun2, ?_, ?_⟩
          · rw [hdet2, hdet1]
          · simp [hlen2, List.filter_cons, hy]

/-- C5 (counterexample): the claim says detections are concatenated in
build order (first-built yolo first), but on a two-yolo network whose
yolo layers output `[5]` (built first) and `[7]` (built second),
`Darknet.forward` returns `[7, 5]`, not `[5, 7]`: line 188 is
`torch.cat((x, detection))`, which prepends each new scale. -/
theorem c5_detections_prepended :
    runFwdTrace (fun i _ => if i = 0 then [5] else [7]) 0
        (([[(pys "type", pys "net")], [(pys "type", pys "yolo")],
           [(pys "type", pys "yolo")]] : List Block).tail.zip
          [ModuleSpec.yolo [] 0 0, ModuleSpec.yolo [] 0 0])
        (initFState [0]) =
      .ok (⟨[[0], [5], [7]], [1, 2], 2, [7, 5]⟩, [[5], [7]]) ∧
    darknetForward (fun i _ => if i = 0 then [5] else [7])
        [[(pys "type", pys "net")], [(pys "type", pys "yolo")],
         [(pys "type", pys "yolo")]]
        [ModuleSpec.yolo [] 0 0, ModuleSpec.yolo [] 0 0] [0] = .ok [7, 5] ∧
    ([7, 5] : Val) ≠ [5] ++ [7] := by
  refine ⟨by decide, by decide, by decide⟩

/-- C5 (amended): `Darknet.forward` returns the decoded yolo outputs
concatenated in reverse build order — the most recently built yolo
layer's detections come first — because each yolo output is prepended to
the accumulator; with no yolo layers the trace is empty and the result
is the empty tensor. -/
theorem c5_detections_reverse_build_order (eval : Nat → Val → Val)
    (blocks : List Block) (ms : List ModuleSpec) (x0 : Val) (sF : FState)
    (tr : List Val)
    (h : runFwdTrace eval 0 (blocks.tail.zip ms) (initFState x0) = .ok (sF, tr)) :
    darknetForward eval blocks ms x0 = .ok tr.reverse.flatten ∧
      tr.length = ((blocks.tail.zip ms).filter (fun p =>
        decide (dictGet p.1 (pys "type") = some (pys "yolo")))).length := by
  obtain ⟨hrun, hdet, hlen⟩ :=
    runFwdTrace_spec eval (blocks.tail.zip ms) 0 (initFState x0) sF tr h
  refine ⟨?_, hlen⟩
  unfold darknetForward
  simp only [hrun, hdet]
  simp [initFState]

/-- C5 (witness): on the two-yolo network the theorem yields the
reverse-order concatenation `[7, 5]` and a trace of length 2. -/
theorem c5_detections_reverse_build_order_witness :
    darknetForward (fun i _ => if i = 0 then [5] else [7])
        [[(pys "type", pys "net")], [(pys "type", pys "yolo")],
         [(pys "type", pys "yolo")]]
        [ModuleSpec.yolo [] 0 0, ModuleSpec.yolo [] 0 0] [0] =
      .ok ([[5], [7]] : List Val).reverse.flatten ∧
    ([[5], [7]] : List Val).length =
      ((([[(pys "type", pys "net")], [(pys "type", pys "yolo")],
          [(pys "type", pys "yolo")]] : List Block).tail.zip
           [ModuleSpec.yolo [] 0 0, ModuleSpec.yolo [] 0 0]).filter (fun p =>
         decide (dictGet p.1 (pys "type") = some (pys "yolo")))).length :=
  c5_detections_reverse_build_order (fun i _ => if i = 0 then [5] else [7])
    [[(pys "type", pys "net")], [(pys "type", pys "yolo")],
     [(pys "type", pys "yolo")]]
    [ModuleSpec.yolo [] 0 0, ModuleSpec.yolo [] 0 0] [0]
    ⟨[[0], [5], [7]], [1, 2], 2, [7, 5]⟩ [[5], [7]] (by decide)

/-- Helper: a `set` at a valid position is read back. -/
theorem get?_set_self {α : Type} (l : List α) (n : Nat) (a : α)
    (h : n < l.length) : (l.set n a).get? n = some a := by
  rw [List.get?_eq_getElem?]
  exact List.getElem?_set_eq_of_lt a h

/-- C9: the executor's shortcut step `x += module(outputs)` mutates, in
place, the very tensor object that was appended to the history as entry
`i-1` (the history's last entry aliases `x`), and appends the same
object as entry `i`: after the step, entries `i-1` and `i` are the same
heap reference, holding the elementwise sum, so any later route or
shortcut layer that references entry `i-1` observes the post-shortcut
value, not the layer's original output. -/
theorem c9_shortcut_inplace_alias (eval : Nat → Val → Val) (i : Nat)
    (b : Block) (idxA : Int) (s s' : FState) (r2 : Nat) (v1 v2 : Val)
    (hty : dictGet b (pys "type") = some (pys "shortcut"))
    (hlast : s.outputs.getLast? = some s.xref)
    (hlen : 1 ≤ s.outputs.length)
    (hstep : stepFwd eval i b (.shortcut idxA) s = .ok s')
    (hr2 : pyGet s.outputs idxA = some r2)
    (hv1 : s.store.get? s.xref = some v1)
    (hv2 : s.store.get? r2 = some v2) :
    s'.outputs = s.outputs ++ [s.xref] ∧
    s'.outputs.get? (s.outputs.length - 1) = some s.xref ∧
    s'.outputs.get? s.outputs.length = some s.xref ∧
    s'.store.get? s.xref = some (zipAdd v1 v2) := by
  have hg1 : getStore s s.xref = .ok v1 := by unfold getStore; rw [hv1]
  have hg2 : getStore s r2 = .ok v2 := by unfold getStore; rw [hv2]
  have hxlt : s.xref < s.store.length := by
    by_contra hc
    rw [List.get?_eq_none.mpr (by omega)] at hv1
    exact Option.noConfusion hv1
  unfold stepFwd at hstep
  simp only [hty,
    eq_false (show ¬ (pys "shortcut" = pys "convolutional" ∨
      pys "shortcut" = pys "upsample") by decide),
    eq_self_iff_true, if_false, if_true, ite_false, ite_true,
    hr2, hg1, hg2] at hstep
  by_cases hl : v1.length = v2.length
  · rw [if_pos hl] at hstep
    injection hstep with h2
    subst h2
    refine ⟨rfl, ?_, ?_, ?_⟩
    · rw [List.getLast?_eq_get?] at hlast
      rw [List.get?_append (by omega)]
      exact hlast
    · exact List.get?_concat_length s.outputs s.xref
    · exact get?_set_self s.store s.xref (zipAdd v1 v2) hxlt
  · rw [if_neg hl] at hstep
    exact Except.noConfusion hstep

/-- C9 (witness): a concrete shortcut step — history entries 0 and 1
both reference heap cell 1, which now holds the in-place sum. -/
theorem c9_shortcut_inplace_alias_witness :
    (FState.mk [[1], [4]] [1, 1] 1 []).outputs = [1] ++ [1] ∧
    (FState.mk [[1], [4]] [1, 1] 1 []).outputs.get? 0 = some 1 ∧
    (FState.mk [[1], [4]] [1, 1] 1 []).outputs.get? 1 = some 1 ∧
    (FState.mk [[1], [4]] [1, 1] 1 []).store.get? 1 = some (zipAdd [2] [2]) :=
  c9_shortcut_inplace_alias (fun _ v => v) 1 [(pys "type", pys "shortcut")] 0
    (FState.mk [[1], [2]] [1] 1 []) (FState.mk [[1], [4]] [1, 1] 1 []) 1 [2] [2]
    (by decide) (by decide) (by decide) (by decide) (by decide) (by decide)
    (by decide)

/-! ## Detection-layer theorems -/

/-- C2: the detection decode — output shape is
(batch, anchors*grid*grid, 5+classes); for the detection of anchor `a`
at cell `(i, j)`, channel 0 is `(sigmoid(raw) + column) * stride` and
channel 1 is `(sigmoid(raw) + row) * stride` with
`stride = input_dim // grid`; channels 2 and 3 are `exp` of the raw
(un-sigmoided) value times the anchor width resp. height; channels 4 and
up get only the sigmoid. In particular with one anchor, one class and
grid size 1 the decoded center is `sigmoid(raw_x) * stride` and the
decoded width is `exp(raw_w) * anchor_width`. -/
theorem c2_detection_decode {R : Type} [CommSemiring R] (sig ex : R → R)
    (anchors : Nat → R × R) (batch A classes dim G : Nat)
    (x : Nat → Nat → Nat → Nat → R) (b a c i j : Nat)
    (ha : a < A) (hi : i < G) (hj : j < G) (hc : 4 ≤ c) :
    (detectionForward sig ex anchors batch A classes dim G x).dims =
      (batch, A * G * G, classes + 5) ∧
    (detectionForward sig ex anchors batch A classes dim G x).val b
        (a * (G * G) + i * G + j) 0 =
      (sig (x b (a * (classes + 5)) i j) + (j : R)) * ((dim / G : Nat) : R) ∧
    (detectionForward sig ex anchors batch A classes dim G x).val b
        (a * (G * G) + i * G + j) 1 =
      (sig (x b (a * (classes + 5) + 1) i j) + (i : R)) * ((dim / G : Nat) : R) ∧
    (detectionForward sig ex anchors batch A classes dim G x).val b
        (a * (G * G) + i * G + j) 2 =
      ex (x b (a * (classes + 5) + 2) i j) * (anchors a).1 ∧
    (detectionForward sig ex anchors batch A classes dim G x).val b
        (a * (G * G) + i * G + j) 3 =
      ex (x b (a * (classes + 5) + 3) i j) * (anchors a).2 ∧
    (detectionForward sig ex anchors batch A classes dim G x).val b
        (a * (G * G) + i * G + j) c =
      sig (x b (a * (classes + 5) + c) i j) := by
  have hG : 0 < G := by omega
  have hGG : 0 < G * G := Nat.mul_pos hG hG
  have hsmall : i * G + j < G * G := by
    calc i * G + j < i * G + G := by omega
    _ = (i + 1) * G := by ring
    _ ≤ G * G := Nat.mul_le_mul_right G hi
  have h1 : (a * (G * G) + i * G + j) / (G * G) = a := by
    rw [Nat.add_assoc, Nat.mul_comm a (G * G), Nat.mul_add_div hGG,
      Nat.div_eq_of_lt hsmall]
    omega
  have h2 : (a * (G * G) + i * G + j) % (G * G) / G = i := by
    rw [Nat.add_assoc, Nat.mul_comm a (G * G), Nat.mul_add_mod,
      Nat.mod_eq_of_lt hsmall, Nat.mul_comm i G, Nat.mul_add_div hG,
      Nat.div_eq_of_lt hj]
    omega
  have h3 : (a * (G * G) + i * G + j) % G = j := by
    have hshape : a * (G * G) + i * G + j = G * (a * G + i) + j := by ring
    rw [hshape, Nat.mul_add_mod, Nat.mod_eq_of_lt hj]
  have hval : ∀ c',
      (detectionForward sig ex anchors batch A classes dim G x).val b
          (a * (G * G) + i * G + j) c' =
        detWH ex anchors (detStride (dim / G) (detOffset (detSigObj sig
          (detSigCenter sig (detView classes x))))) b a c' i j := by
    intro c'
    simp only [detectionForward, detFlatten]
    rw [h1, h2, h3]
  refine ⟨rfl, ?_, ?_, ?_, ?_, ?_⟩
  · rw [hval 0]
    simp [detWH, detStride, detOffset, detSigObj, detSigCenter, detView]
  · rw [hval 1]
    simp [detWH, detStride, detOffset, detSigObj, detSigCenter, detView]
  · rw [hval 2]
    simp [detWH, detStride, detOffset, detSigObj, detSigCenter, detView]
  · rw [hval 3]
    simp [detWH, detStride, detOffset, detSigObj, detSigCenter, detView]
  · rw [hval c]
    simp [detWH, detStride, detOffset, detSigObj, detSigCenter, detView,
      show c ≠ 2 by omega, show c ≠ 3 by omega, show ¬ c < 2 by omega,
      show c ≠ 0 by omega, show c ≠ 1 by omega, hc]

/-- C2 (witness): a single-anchor, single-class, grid-1 decode at
stride 416 with concrete stand-ins for sigmoid and exp: the center is
`sig(raw) * stride`, the width `ex(raw) * anchor_width`. -/
theorem c2_detection_decode_witness :
    (detectionForward (fun t => t + 1) (fun t => t * 2) (fun _ => ((3 : ℤ), 4))
        1 1 1 416 1 (fun _ ch _ _ => (ch : ℤ))).dims = (1, 1, 6) ∧
    (detectionForward (fun t => t + 1) (fun t => t * 2) (fun _ => ((3 : ℤ), 4))
        1 1 1 416 1 (fun _ ch _ _ => (ch : ℤ))).val 0 0 0 =
      ((0 : ℤ) + 1 + 0) * 416 ∧
    (detectionForward (fun t => t + 1) (fun t => t * 2) (fun _ => ((3 : ℤ), 4))
        1 1 1 416 1 (fun _ ch _ _ => (ch : ℤ))).val 0 0 1 =
      ((1 : ℤ) + 1 + 0) * 416 ∧
    (detectionForward (fun t => t + 1) (fun t => t * 2) (fun _ => ((3 : ℤ), 4))
        1 1 1 416 1 (fun _ ch _ _ => (ch : ℤ))).val 0 0 2 =
      (2 : ℤ) * 2 * 3 ∧
    (detectionForward (fun t => t + 1) (fun t => t * 2) (fun _ => ((3 : ℤ), 4))
        1 1 1 416 1 (fun _ ch _ _ => (ch : ℤ))).val 0 0 3 =
      (3 : ℤ) * 2 * 4 ∧
    (detectionForward (fun t => t + 1) (fun t => t * 2) (fun _ => ((3 : ℤ), 4))
        1 1 1 416 1 (fun _ ch _ _ => (ch : ℤ))).val 0 0 4 =
      (4 : ℤ) + 1 :=
  c2_detection_decode (fun t => t + 1) (fun t => t * 2) (fun _ => ((3 : ℤ), 4))
    1 1 1 416 1 (fun _ ch _ _ => (ch : ℤ)) 0 0 4 0 0
    (by decide) (by decide) (by decide) (by decide)

/-! ## Weight-loader theorems -/

/-- Helper: a slice whose end stays inside the stream succeeds and
returns the plain slice. -/
theorem sliceW_ok (w : List Int) (p n : Nat) (h : p + n ≤ w.length) :
    sliceW w p n = .ok (wSlice w p n) := by
  have hlen : ((w.drop p).take n).length = n := by
    rw [List.length_take, List.length_drop]
    omega
  simp [sliceW, wSlice, hlen]

/-- Helper: a successful slice keeps its end inside the stream. -/
theorem sliceW_bound (w : List Int) (p n : Nat) (s : List Int)
    (h : sliceW w p n = .ok s) : n ≤ w.length - p := by
  unfold sliceW at h
  dsimp only at h
  split at h
  · rename_i hlen
    rw [List.length_take, List.length_drop] at hlen
    omega
  · exact Except.noConfusion h

/-- Helper: the total consumption of a layer list decomposes headfirst. -/
theorem totalConsume_cons (b : Block) (m : ModuleSpec)
    (rest : List (Block × ModuleSpec)) :
    totalConsume ((b, m) :: rest) = claimConsume b m + totalConsume rest := by
  simp [totalConsume]

/-- Helper: the claim-side loader's final cursor is the start plus the
total consumption. -/
theorem loadClaim_snd :
    ∀ (pairs : List (Block × ModuleSpec)) (w : List Int) (p : Nat),
      (loadClaim pairs w p).2 = p + totalConsume pairs := by
  intro pairs
  induction pairs with
  | nil => intro w p; simp [loadClaim, totalConsume]
  | cons q rest ih =>
    intro w p
    obtain ⟨b, m⟩ := q
    rw [loadClaim]
    rw [ih w (p + claimConsume b m), totalConsume_cons]
    omega

/-- Helper: with a correctly aligned (block, module) pair and enough
floats left, one loader step consumes exactly the claimed count and
assigns exactly the claimed slices. -/
theorem lwStep_ok (b : Block) (m : ModuleSpec) (w : List Int) (p : Nat)
    (hal : lAligned b m = true) (hb : p + claimConsume b m ≤ w.length) :
    lwStep b m w p = .ok (loadClaimEntry b m w p, p + claimConsume b m) := by
  cases hty : dictGet b (pys "type") with
  | none => simp [lAligned, hty] at hal
  | some ty =>
    by_cases hcv : ty = pys "convolutional"
    · subst hcv
      have halm := hal
      simp only [lAligned, hty, eq_self_iff_true, if_true] at halm
      cases m with
      | conv bn filters inCh ksize stride padding leaky =>
        simp only [Bool.and_eq_true, beq_iff_eq, decide_eq_true_eq] at halm
        obtain ⟨⟨⟨hbn, hf⟩, hic⟩, hk⟩ := halm
        have hcc : claimConsume b (.conv bn filters inCh ksize stride padding leaky) =
            (if dictContains b (pys "batch_normalize") then 4 * filters.toNat
             else filters.toNat) + (filters * inCh * ksize * ksize).toNat := by
          simp [claimConsume, hty]
        by_cases hkey : dictContains b (pys "batch_normalize") = true
        · rw [hkey] at hbn
          subst hbn
          rw [hcc, if_pos hkey] at hb
          simp only [lwStep, hty, eq_self_iff_true, if_true, hkey]
          rw [sliceW_ok w p filters.toNat (by omega),
            sliceW_ok w (p + filters.toNat) filters.toNat (by omega),
            sliceW_ok w (p + 2 * filters.toNat) filters.toNat (by omega),
            sliceW_ok w (p + 3 * filters.toNat) filters.toNat (by omega),
            sliceW_ok w (p + 4 * filters.toNat)
              (filters * inCh * ksize * ksize).toNat (by omega)]
          simp only [loadClaimEntry, hty, eq_self_iff_true, if_true, hkey]
          rw [hcc, if_pos hkey, ← Nat.add_assoc]
        · have hkf : dictContains b (pys "batch_normalize") = false :=
            Bool.eq_false_iff.mpr hkey
          rw [hkf] at hbn
          subst hbn
          rw [hcc, if_neg (by rw [hkf]; exact Bool.false_ne_true)] at hb
          simp only [lwStep, hty, eq_self_iff_true, if_true, hkf,
            Bool.false_eq_true, if_false, ite_false]
          rw [sliceW_ok w p filters.toNat (by omega),
            sliceW_ok w (p + filters.toNat)
              (filters * inCh * ksize * ksize).toNat (by omega)]
          simp only [loadClaimEntry, hty, eq_self_iff_true, if_true, hkf,
            Bool.false_eq_true, if_false, ite_false]
          rw [hcc, if_neg (by rw [hkf]; exact Bool.false_ne_true), ← Nat.add_assoc]
      | shortcut idx => simp at halm
      | upsample stride => simp at halm
      | route idxs => simp at halm
      | yolo anchors classes inputDim => simp at halm
      | empty => simp at halm
    · have hcc : claimConsume b m = 0 := by
        simp [claimConsume, hty, hcv]
      have hent : loadClaimEntry b m w p = none := by
        simp [loadClaimEntry, hty, hcv]
      simp only [lwStep, hty, if_neg hcv]
      rw [hent, hcc]
      rfl

/-- Helper: a successful loader step (on any pair, aligned or not)
advances the cursor by exactly the claimed amount and keeps it inside
the stream. -/
theorem lwStep_bound (b : Block) (m : ModuleSpec) (w : List Int) (p : Nat)
    (entry : Option LoadedConv) (p2 : Nat)
    (h : lwStep b m w p = .ok (entry, p2)) (hp : p ≤ w.length) :
    p2 = p + claimConsume b m ∧ p2 ≤ w.length := by
  unfold lwStep at h
  cases hty : dictGet b (pys "type") with
  | none => simp only [hty] at h; exact Except.noConfusion h
  | some ty =>
    simp only [hty] at h
    by_cases hcv : ty = pys "convolutional"
    · subst hcv
      rw [if_pos rfl] at h
      cases m with
      | conv bn filters inCh ksize stride padding leaky =>
        have hcc : claimConsume b (.conv bn filters inCh ksize stride padding leaky) =
            (if dictContains b (pys "batch_normalize") then 4 * filters.toNat
             else filters.toNat) + (filters * inCh * ksize * ksize).toNat := by
          simp [claimConsume, hty]
        rw [hcc]
        dsimp only at h
        by_cases hkey : dictContains b (pys "batch_normalize") = true
        · rw [hkey] at h
          rw [if_pos rfl] at h
          rw [if_pos hkey]
          cases bn with
          | false =>
            rw [if_neg (by exact Bool.false_ne_true)] at h
            exact Except.noConfusion h
          | true =>
            rw [if_pos rfl] at h
            cases hs1 : sliceW w p filters.toNat with
            | error e => simp only [hs1] at h; exact Except.noConfusion h
            | ok s1 =>
              simp only [hs1] at h
              cases hs2 : sliceW w (p + filters.toNat) filters.toNat with
              | error e => simp only [hs2] at h; exact Except.noConfusion h
              | ok s2 =>
                simp only [hs2] at h
                cases hs3 : sliceW w (p + 2 * filters.toNat) filters.toNat with
                | error e => simp only [hs3] at h; exact Except.noConfusion h
                | ok s3 =>
                  simp only [hs3] at h
                  cases hs4 : sliceW w (p + 3 * filters.toNat) filters.toNat with
                  | error e => simp only [hs4] at h; exact Except.noConfusion h
                  | ok s4 =>
                    simp only [hs4] at h
                    cases hs5 : sliceW w (p + 4 * filters.toNat)
                        (filters * inCh * ksize * ksize).toNat with
                    | error e => simp only [hs5] at h; exact Except.noConfusion h
                    | ok s5 =>
                      simp only [hs5] at h
                      injection h with h2
                      injection h2 with he hp2
                      have b1 := sliceW_bound w p filters.toNat s1 hs1
                      have b4 := sliceW_bound w (p + 3 * filters.toNat)
                        filters.toNat s4 hs4
                      have b5 := sliceW_bound w (p + 4 * filters.toNat)
                        (filters * inCh * ksize * ksize).toNat s5 hs5
                      constructor
                      · omega
                      · omega
        · have hkf : dictContains b (pys "batch_normalize") = false :=
            Bool.eq_false_iff.mpr hkey
          rw [hkf] at h
          rw [if_neg (by exact Bool.false_ne_true)] at h
          rw [if_neg hkey]
          cases bn with
          | true =>
            rw [if_pos rfl] at h
            exact Except.noConfusion h
          | false =>
            rw [if_neg (by exact Bool.false_ne_true)] at h
            cases hs1 : sliceW w p filters.toNat with
            | error e => simp only [hs1] at h; exact Except.noConfusion h
            | ok s1 =>
              simp only [hs1] at h
              cases hs2 : sliceW w (p + filters.toNat)
                  (filters * inCh * ksize * ksize).toNat with
              | error e => simp only [hs2] at h; exact Except.noConfusion h
              | ok s2 =>
                simp only [hs2] at h
                injection h with h2
                injection h2 with he hp2
                have b1 := sliceW_bound w p filters.toNat s1 hs1
                have b2 := sliceW_bound w (p + filters.toNat)
                  (filters * inCh * ksize * ksize).toNat s2 hs2
                constructor
                · omega
                · omega
      | shortcut idx => exact Except.noConfusion h
      | upsample stride => exact Except.noConfusion h
      | route idxs => exact Except.noConfusion h
      | yolo anchors classes inputDim => exact Except.noConfusion h
      | empty => exact Except.noConfusion h
    · rw [if_neg hcv] at h
      injection h with h2
      injection h2 with he hp2
      have hcc : claimConsume b m = 0 := by simp [claimConsume, hty, hcv]
      rw [hcc]
      omega

/-- C1: for an aligned network with enough floats in the stream, the
loader consumes, per convolutional layer and in this exact order, the
batch-norm bias/scale/mean/variance slices of `filters` floats each (or
the `filters`-float convolution bias when there is no batch-norm) and
then the `filters*in_channels*kh*kw` kernel slice, all at offsets given
by one monotonic cursor; every other layer type consumes zero floats,
and the final cursor is the start plus the total consumption. -/
theorem c1_loader_layout :
    ∀ (pairs : List (Block × ModuleSpec)) (w : List Int) (p : Nat),
      pairs.all (fun q => lAligned q.1 q.2) = true →
      p + totalConsume pairs ≤ w.length →
      lwGo pairs w p = .ok (loadClaim pairs w p) ∧
        (loadClaim pairs w p).2 = p + totalConsume pairs := by
  intro pairs
  induction pairs with
  | nil =>
    intro w p hal hb
    exact ⟨rfl, by simp [loadClaim, totalConsume]⟩
  | cons q rest ih =>
    obtain ⟨b, m⟩ := q
    intro w p hal hb
    rw [List.all_cons, Bool.and_eq_true] at hal
    rw [totalConsume_cons] at hb
    have hstep := lwStep_ok b m w p hal.1 (by omega)
    have hrec := ih w (p + claimConsume b m) hal.2 (by omega)
    refine ⟨?_, loadClaim_snd _ w p⟩
    have hrec1 : lwGo rest w (p + claimConsume b m) =
        .ok ((loadClaim rest w (p + claimConsume b m)).1,
          (loadClaim rest w (p + claimConsume b m)).2) := hrec.1
    rw [lwGo]
    simp only [hstep, hrec1]
    rw [loadClaim]

/-- C1 (witness): a batch-norm conv layer (2 filters, 3 input channels,
1x1 kernel) followed by a non-conv layer on a 14-float stream. -/
theorem c1_loader_layout_witness :
    lwGo [([(pys "type", pys "convolutional"), (pys "batch_normalize", pys "1")],
        .conv true 2 3 1 1 0 true), ([(pys "type", pys "foo")], .empty)]
      [0, 1, 2, 3, 4, 5, 6, 7, 8, 9, 10, 11, 12, 13] 0 =
      .ok (loadClaim [([(pys "type", pys "convolutional"),
          (pys "batch_normalize", pys "1")], .conv true 2 3 1 1 0 true),
        ([(pys "type", pys "foo")], .empty)]
        [0, 1, 2, 3, 4, 5, 6, 7, 8, 9, 10, 11, 12, 13] 0) ∧
    (loadClaim [([(pys "type", pys "convolutional"),
        (pys "batch_normalize", pys "1")], .conv true 2 3 1 1 0 true),
      ([(pys "type", pys "foo")], .empty)]
      [0, 1, 2, 3, 4, 5, 6, 7, 8, 9, 10, 11, 12, 13] 0).2 =
      0 + totalConsume [([(pys "type", pys "convolutional"),
        (pys "batch_normalize", pys "1")], .conv true 2 3 1 1 0 true),
      ([(pys "type", pys "foo")], .empty)] :=
  c1_loader_layout
    [([(pys "type", pys "convolutional"), (pys "batch_normalize", pys "1")],
      .conv true 2 3 1 1 0 true), ([(pys "type", pys "foo")], .empty)]
    [0, 1, 2, 3, 4, 5, 6, 7, 8, 9, 10, 11, 12, 13] 0 (by decide) (by decide)

/-- Helper: a successful load run advances the cursor by exactly the
total consumption without ever passing the end of the stream. -/
theorem lwGo_bound :
    ∀ (pairs : List (Block × ModuleSpec)) (w : List Int) (p : Nat)
      (l : List (Option LoadedConv)) (pF : Nat),
      lwGo pairs w p = .ok (l, pF) → p ≤ w.length →
      pF = p + totalConsume pairs ∧ pF ≤ w.length := by
  intro pairs
  induction pairs with
  | nil =>
    intro w p l pF h hp
    rw [lwGo] at h
    injection h with h2
    injection h2 with hl hpF
    subst hpF
    simp [totalConsume]
    omega
  | cons q rest ih =>
    obtain ⟨b, m⟩ := q
    intro w p l pF h hp
    rw [lwGo] at h
    cases hstep : lwStep b m w p with
    | error e => simp only [hstep] at h; exact Except.noConfusion h
    | ok q2 =>
      obtain ⟨entry, p2⟩ := q2
      simp only [hstep] at h
      cases hrec : lwGo rest w p2 with
      | error e => simp only [hrec] at h; exact Except.noConfusion h
      | ok q3 =>
        obtain ⟨l2, pF2⟩ := q3
        simp only [hrec] at h
        injection h with h2
        injection h2 with hl hpF
        subst hpF
        obtain ⟨hs1, hs2⟩ := lwStep_bound b m w p entry p2 hstep hp
        obtain ⟨hr1, hr2⟩ := ih w p2 l2 pF2 hrec hs2
        rw [totalConsume_cons]
        omega

/-- C7: a weight blob whose float stream is too short for the layers'
total requirement makes `load_weights` fail (the short numpy slice makes
`view_as` raise) rather than assigning zero-filled or garbage data. -/
theorem c7_truncated_blob_fails (pairs : List (Block × ModuleSpec))
    (w : List Int) (h : w.length < totalConsume pairs) :
    isOkE (loadWeights pairs w) = false := by
  unfold loadWeights
  cases hres : lwGo pairs w 0 with
  | error e => rfl
  | ok q =>
    obtain ⟨l, pF⟩ := q
    obtain ⟨h1, h2⟩ := lwGo_bound pairs w 0 l pF hres (by omega)
    exfalso
    omega

/-- C7 (witness): a batch-norm conv layer needing 10 floats on a 5-float
stream fails to load. -/
theorem c7_truncated_blob_fails_witness :
    isOkE (loadWeights
      [([(pys "type", pys "convolutional"), (pys "batch_normalize", pys "1")],
        .conv true 2 1 1 1 0 true)] [0, 1, 2, 3, 4]) = false :=
  c7_truncated_blob_fails
    [([(pys "type", pys "convolutional"), (pys "batch_normalize", pys "1")],
      .conv true 2 1 1 1 0 true)] [0, 1, 2, 3, 4] (by decide)
